import Mathlib

/-!
Shallow embedding of the privacy-preserving voting backend
(`src/main.py`, `src/schemas.py`).

The MongoDB document store is modelled as in-memory lists, one per
collection, inside a `DB` state.  Document `_id`s are modelled as natural
numbers allocated from a `nextId` counter (the real store uses ObjectIds,
which are likewise unique and allocated at insert time).  `find_one`
returns the first matching document in insertion order; `find_one` with a
descending sort on `created_at` returns a document of maximal
`created_at` among the matches.  `update_one` updates the first matching
document.  HTTP handlers become pure functions `DB → Except ApiError
(DB × result)`; raising `HTTPException` corresponds to `Except.error`,
and a handler that raises performs no write (in the source every raise
happens before the single `create_document` / `update_one` call of the
handler, except `attach_tx`, whose `update_one` writes nothing when no
document matches).

`hashlib.sha256(...).hexdigest()` (`sha256_hex`) is a fixed external
function on strings; the model takes it as an explicit parameter
`sha : String → String` and, where a claim needs collision-freeness,
assumes it injective.  Random nonces (`secrets.token_hex`) and the clock
(`datetime.utcnow`) enter as explicit parameters of the operations.
-/

namespace IrisVoting

/-- Model of `Candidate` from `schemas.py`. -/
structure Candidate where
  id : String
  name : String
  party : Option String
deriving Repr, DecidableEq

/-- The `status` literal of `Election` in `schemas.py`. -/
inductive ElectionStatus
  | draft
  | active
  | closed
deriving Repr, DecidableEq

/-- Model of `Voter` from `schemas.py` (the `voter` collection).
`demographics` is an opaque key/value bag; timestamps are `Nat`. -/
structure Voter where
  voter_id : String
  name : String
  email : Option String
  demographics : List (String × String)
  public_key : String
  public_key_hash : String
  iris_commitment : String
  registered_at : Nat
deriving Repr, DecidableEq

/-- Model of `AuthSession` from `schemas.py` (the `authsession` collection),
with its Mongo `_id` modelled as `oid : Nat`. -/
structure AuthSession where
  oid : Nat
  voter_id : String
  nonce : String
  created_at : Nat
  verified : Bool
deriving Repr, DecidableEq

/-- Model of `Election` from `schemas.py` (the `election` collection). -/
structure Election where
  oid : Nat
  title : String
  description : Option String
  status : ElectionStatus
  candidates : List Candidate
  start_time : Nat
  end_time : Option Nat
deriving Repr, DecidableEq

/-- Model of `VoteRecord` from `schemas.py` (the `voterecord` collection). -/
structure VoteRecord where
  oid : Nat
  election_id : String
  voter_public_key_hash : String
  candidate_id : String
  zk_proof : List (String × String)
  signed_payload : Option String
  tx_hash : Option String
  chain_id : Option Int
  contract_address : Option String
deriving Repr, DecidableEq

/-- The document store: one list per collection, plus the id allocator. -/
structure DB where
  voters : List Voter
  sessions : List AuthSession
  elections : List Election
  votes : List VoteRecord
  nextId : Nat
deriving Repr, DecidableEq

/-- The store before any request has been served. -/
def DB.empty : DB := ⟨[], [], [], [], 0⟩

/-- The `HTTPException`s raised by the handlers in `main.py`, one
constructor per distinct raise site. -/
inductive ApiError
  | duplicateVoter
  | voterNotFound
  | noSession
  | verificationFailed
  | duplicateVote
  | invalidVoteId
  | voteNotFound
deriving Repr, DecidableEq

/-- Body model `RegisterRequest` from `main.py`. -/
structure RegisterRequest where
  voter_id : String
  name : String
  email : Option String
  demographics : List (String × String)
  public_key : String
  iris_commitment : String
deriving Repr, DecidableEq

/-- Body model `VerifyRequest` from `main.py`. -/
structure VerifyRequest where
  voter_id : String
  iris_commitment_proof : String
  signed_nonce : String
deriving Repr, DecidableEq

/-- Body model `CreateElectionRequest` from `main.py`. -/
structure CreateElectionRequest where
  title : String
  description : Option String
  candidates : List Candidate
  start_time : Option Nat
  end_time : Option Nat
deriving Repr, DecidableEq

/-- Body model `CastVoteRequest` from `main.py`. -/
structure CastVoteRequest where
  election_id : String
  voter_public_key_hash : String
  candidate_id : String
  zk_proof : List (String × String)
  signed_payload : Option String
deriving Repr, DecidableEq

/-- Body model `AttachTxRequest` from `main.py`. -/
structure AttachTxRequest where
  vote_id : String
  tx_hash : String
  contract_address : Option String
  chain_id : Option Int
deriving Repr, DecidableEq

/-- The Python method `str.lower()` on the ASCII alphabet, written by structural
recursion on the character list so that concrete instances evaluate. -/
def pyLower (s : String) : String := ⟨s.data.map Char.toLower⟩

/-- Handler `register_voter` (`POST /api/register`, main.py:73-92).
`sha` stands for `sha256_hex`; `pk_hash = sha256_hex(public_key.lower())`.
The `$or` `find_one` existence check is the duplicate guard; on success a
`Voter` document is appended and the hash returned. -/
def register_voter (sha : String → String) (p : RegisterRequest) (now : Nat)
    (db : DB) : Except ApiError (DB × String) :=
  let pk_hash := sha (pyLower p.public_key)
  if db.voters.any (fun v => decide (v.voter_id = p.voter_id ∨ v.public_key_hash = pk_hash)) then
    .error .duplicateVoter
  else
    let voter : Voter :=
      ⟨p.voter_id, p.name, p.email, p.demographics, p.public_key, pk_hash,
        p.iris_commitment, now⟩
    .ok ({ db with voters := db.voters ++ [voter], nextId := db.nextId + 1 }, pk_hash)

/-- Handler `auth_challenge` (`POST /api/auth/challenge`, main.py:101-110).
`nonce` is the value produced by `secrets.token_hex(16)`, `now` the value
of `datetime.utcnow()`. -/
def auth_challenge (voter_id : String) (nonce : String) (now : Nat)
    (db : DB) : Except ApiError (DB × String) :=
  if db.voters.any (fun v => decide (v.voter_id = voter_id)) then
    let session : AuthSession := ⟨db.nextId, voter_id, nonce, now, false⟩
    .ok ({ db with sessions := db.sessions ++ [session], nextId := db.nextId + 1 }, nonce)
  else
    .error .voterNotFound

/-- One step of the maximum-`created_at` selection underlying
`find_one(..., sort=[("created_at", -1)])`. -/
def latestStep (acc : Option AuthSession) (t : AuthSession) : Option AuthSession :=
  match acc with
  | none => some t
  | some b => if b.created_at < t.created_at then some t else some b

/-- Model of `db["authsession"].find_one` with a descending sort on `created_at`:
some session of the voter with maximal `created_at` (ties resolved to the
earliest inserted, one admissible resolution of the unspecified Mongo tie
order), or `none` when the voter has no session. -/
def latestSession (voter_id : String) (l : List AuthSession) : Option AuthSession :=
  (l.filter (fun t => decide (t.voter_id = voter_id))).foldl latestStep none

/-- Model of `update_one` setting `verified` on the
`authsession` collection: set `verified` on the first document with the
given id. -/
def setVerified (oid : Nat) : List AuthSession → List AuthSession
  | [] => []
  | t :: ts =>
    if t.oid = oid then { t with verified := true } :: ts
    else t :: setVerified oid ts

/-- Handler `auth_verify` (`POST /api/auth/verify`, main.py:119-139).
The placeholder checks of main.py:132-136: the first 8 characters of the
stored iris commitment must equal the first 8 characters of the submitted
proof, and the submitted signed nonce must have length at least 64.  The
stored nonce itself is never consulted. -/
def auth_verify (p : VerifyRequest) (db : DB) : Except ApiError (DB × String) :=
  match db.voters.find? (fun v => decide (v.voter_id = p.voter_id)) with
  | none => .error .voterNotFound
  | some voter =>
    match latestSession p.voter_id db.sessions with
    | none => .error .noSession
    | some session =>
      if voter.iris_commitment.take 8 = p.iris_commitment_proof.take 8 ∧
          64 ≤ p.signed_nonce.length then
        .ok ({ db with sessions := setVerified session.oid db.sessions },
          voter.public_key_hash)
      else
        .error .verificationFailed

/-- Handler `create_election` (`POST /api/elections`, main.py:152-163).
Status is hard-coded `"active"`; `start_time` defaults to `now`. -/
def create_election (p : CreateElectionRequest) (now : Nat)
    (db : DB) : Except ApiError (DB × Nat) :=
  let e : Election :=
    ⟨db.nextId, p.title, p.description, .active, p.candidates,
      p.start_time.getD now, p.end_time⟩
  .ok ({ db with elections := db.elections ++ [e], nextId := db.nextId + 1 }, e.oid)

/-- Handler `cast_vote` (`POST /api/vote`, main.py:184-203).  The only
check is the `find_one` on the pair `(election_id, voter_public_key_hash)`;
elections are never consulted. -/
def cast_vote (p : CastVoteRequest) (db : DB) : Except ApiError (DB × Nat) :=
  if db.votes.any (fun r =>
      decide (r.election_id = p.election_id ∧
        r.voter_public_key_hash = p.voter_public_key_hash)) then
    .error .duplicateVote
  else
    let r : VoteRecord :=
      ⟨db.nextId, p.election_id, p.voter_public_key_hash, p.candidate_id,
        p.zk_proof, p.signed_payload, none, none, none⟩
    .ok ({ db with votes := db.votes ++ [r], nextId := db.nextId + 1 }, r.oid)

/-- Validity and parsing of `ObjectId(vote_id)`, modelled as reading a decimal
numeral by structural recursion (invalid strings are rejected, as the
`except` clause of the handler does for malformed ObjectIds). -/
def parseOid (s : String) : Option Nat :=
  if s.data ≠ [] ∧ s.data.all (fun c => c.isDigit) then
    some (s.data.foldl (fun n c => 10 * n + (c.toNat - 48)) 0)
  else none

/-- Model of `update_one` on `voterecord` setting the attachment fields:
overwrite the attachment fields of the first document with the given id. -/
def setTx (oid : Nat) (tx : String) (addr : Option String) (cid : Option Int) :
    List VoteRecord → List VoteRecord
  | [] => []
  | r :: rs =>
    if r.oid = oid then
      { r with tx_hash := some tx, contract_address := addr, chain_id := cid } :: rs
    else r :: setTx oid tx addr cid rs

/-- Handler `attach_tx` (`POST /api/vote/attach-tx`, main.py:213-228).
`ObjectId(vote_id)` parsing is modelled by `parseOid`; a failed parse
is the 400 "Invalid vote id".  The `$set` overwrites the attachment fields
unconditionally; `matched_count == 0` is the 404. -/
def attach_tx (p : AttachTxRequest) (db : DB) : Except ApiError DB :=
  match parseOid p.vote_id with
  | none => .error .invalidVoteId
  | some oid =>
    if db.votes.any (fun r => decide (r.oid = oid)) then
      .ok { db with votes := setTx oid p.tx_hash p.contract_address p.chain_id db.votes }
    else
      .error .voteNotFound

/-- One client request, with the nondeterministic inputs (clock, fresh
nonce) made explicit. -/
inductive Op
  | register (p : RegisterRequest) (now : Nat)
  | challenge (voter_id nonce : String) (now : Nat)
  | verify (p : VerifyRequest)
  | createElection (p : CreateElectionRequest) (now : Nat)
  | castVote (p : CastVoteRequest)
  | attachTx (p : AttachTxRequest)
deriving Repr

/-- Effect of one request on the store: the post-state on success, the
unchanged store when the handler raises (no write precedes a raise). -/
def exec (sha : String → String) (op : Op) (db : DB) : DB :=
  match op with
  | .register p now =>
    match register_voter sha p now db with
    | .ok (db', _) => db'
    | .error _ => db
  | .challenge vid nonce now =>
    match auth_challenge vid nonce now db with
    | .ok (db', _) => db'
    | .error _ => db
  | .verify p =>
    match auth_verify p db with
    | .ok (db', _) => db'
    | .error _ => db
  | .createElection p now =>
    match create_election p now db with
    | .ok (db', _) => db'
    | .error _ => db
  | .castVote p =>
    match cast_vote p db with
    | .ok (db', _) => db'
    | .error _ => db
  | .attachTx p =>
    match attach_tx p db with
    | .ok db' => db'
    | .error _ => db

/-- One request relates a store to its successor. -/
def StepRel (sha : String → String) (a b : DB) : Prop := ∃ op, exec sha op a = b

/-- Any finite sequence of requests. -/
def Steps (sha : String → String) : DB → DB → Prop :=
  Relation.ReflTransGen (StepRel sha)

/-- Stores the running system can be in: reached from the empty store by
some sequence of requests. -/
def Reachable (sha : String → String) (s : DB) : Prop := Steps sha DB.empty s

/-- The deduplication key of a vote record. -/
def votePair (r : VoteRecord) : String × String :=
  (r.election_id, r.voter_public_key_hash)

/-- The multiset of `(electionID, voterPublicKeyHash)` pairs on the ledger,
in insertion order. -/
def pairsOf (db : DB) : List (String × String) := db.votes.map votePair

/-- The ledger holds at most one record per pair. -/
def VotesUnique (db : DB) : Prop := (pairsOf db).Nodup

/-- A vote with the given pair is on the ledger. -/
def PairIn (e h : String) (db : DB) : Prop := (e, h) ∈ pairsOf db

/-- The `public_key_hash` of every stored voter is the hash of its lowercased
public key, as `register_voter` computes it. -/
def HashConsistent (sha : String → String) (db : DB) : Prop :=
  ∀ v ∈ db.voters, v.public_key_hash = sha (pyLower v.public_key)

/-- Session ids are below the allocator and pairwise distinct. -/
def SessionIdsOk (db : DB) : Prop :=
  (∀ t ∈ db.sessions, t.oid < db.nextId) ∧ (db.sessions.map (·.oid)).Nodup

/-- The store after one successful `CastVote("e1", "h1", "c1")` on the
empty store. -/
def c1DB2 : DB := ⟨[], [], [], [⟨0, "e1", "h1", "c1", [], none, none, none, none⟩], 1⟩

/-- A registered voter whose iris commitment begins `abcdefgh`. -/
def c2Voter : Voter := ⟨"v1", "Alice", none, [], "PK1", "H1", "abcdefghXYZ", 0⟩

/-- The single (still unverified) challenge issued to `v1`. -/
def c2Sess : AuthSession := ⟨1, "v1", "nonce1", 5, false⟩

/-- Store holding `v1` and the fresh challenge. -/
def c2DB : DB := ⟨[c2Voter], [c2Sess], [], [], 2⟩

/-- A verify request passing both placeholder checks (8-character prefix
match, 64-character signed nonce). -/
def c2Req : VerifyRequest :=
  ⟨"v1", "abcdefgh",
    "0123456789012345678901234567890123456789012345678901234567890123"⟩

/-- The store after the first successful verify: the challenge is marked
verified. -/
def c2DB1 : DB := ⟨[c2Voter], [⟨1, "v1", "nonce1", 5, true⟩], [], [], 2⟩

/-- The registered voter of the C3 scenario: public key `AbC`, hash
computed (with `sha` instantiated to the identity) as `abc`. -/
def c3Voter : Voter := ⟨"v1", "Bob", none, [], "AbC", "abc", "ic", 7⟩

/-- Store holding exactly that voter. -/
def c3DB : DB := ⟨[c3Voter], [], [], [], 1⟩

/-- An active election whose only candidate is `c1`. -/
def c4Election : Election := ⟨0, "Prez", none, .active, [⟨"c1", "Alice", none⟩], 0, none⟩

/-- Store holding that election and an empty ledger. -/
def c4DB : DB := ⟨[], [], [c4Election], [], 1⟩

/-- A vote for candidate `cX`, which is not on the candidate list of the election. -/
def c4Req : CastVoteRequest := ⟨"0", "H1", "cX", [], none⟩

/-- A closed election. -/
def c5Election : Election := ⟨0, "Old", none, .closed, [⟨"c1", "Alice", none⟩], 0, some 10⟩

/-- Store holding only the closed election. -/
def c5DB : DB := ⟨[], [], [c5Election], [], 1⟩

/-- A vote referencing the closed election — and, in the same store, a
vote referencing an election id that exists nowhere. -/
def c5Req : CastVoteRequest := ⟨"0", "H1", "c1", [], none⟩

/-- A vote naming a completely unknown election id. -/
def c5ReqMissing : CastVoteRequest := ⟨"no-such-election", "H2", "c1", [], none⟩

/-- A vote record already attached to transaction `0xaaa`. -/
def c6Rec : VoteRecord := ⟨0, "e", "h", "c", [], none, some "0xaaa", some 1, some "0xCC"⟩

/-- Store holding that attached record. -/
def c6DB : DB := ⟨[], [], [], [c6Rec], 1⟩

/-- A retry carrying a different transaction hash `0xbbb`. -/
def c6Req : AttachTxRequest := ⟨"0", "0xbbb", some "0xCC", some 1⟩

/-- Store of the C7 witness: one registered voter `v1`, no sessions. -/
def c7DB : DB := ⟨[⟨"v1", "A", none, [], "PK", "H", "ic", 0⟩], [], [], [], 1⟩

/-- A 64-character signed-nonce string. -/
def nonce64 : String :=
  "0123456789012345678901234567890123456789012345678901234567890123"

/-- The registered voter of the C8 scenario. -/
def c8Voter : Voter := ⟨"v1", "A", none, [], "pk", "pk", "abcdefghZ", 0⟩

/-- Store reached by registering `v1` and issuing two challenges, the
second (id 2) created later than the first (id 1). -/
def c8DB : DB :=
  ⟨[c8Voter], [⟨1, "v1", "n1", 1, false⟩, ⟨2, "v1", "n2", 2, false⟩], [], [], 3⟩

/-- The store with every stored nonce rewritten, all other fields kept:
used to state that verification does not depend on the issued nonce. -/
def mapNonces (f : String → String) (db : DB) : DB :=
  { db with sessions := (db.sessions.map (fun t => { t with nonce := f t.nonce })) }

theorem pairIn_iff (e h : String) (db : DB) :
    PairIn e h db ↔ ∃ r ∈ db.votes, r.election_id = e ∧ r.voter_public_key_hash = h := by
  simp [PairIn, pairsOf, votePair, List.mem_map, Prod.ext_iff]

theorem cast_fails_of_pairIn (p : CastVoteRequest) (db : DB)
    (hp : PairIn p.election_id p.voter_public_key_hash db) :
    cast_vote p db = .error .duplicateVote := by
  rw [pairIn_iff] at hp
  obtain ⟨r, hr, h1, h2⟩ := hp
  unfold cast_vote
  rw [if_pos]
  rw [List.any_eq_true]
  exact ⟨r, hr, by simp [h1, h2]⟩

theorem cast_ok_pairs (p : CastVoteRequest) (db db' : DB) (n : Nat)
    (hc : cast_vote p db = .ok (db', n)) :
    pairsOf db' = pairsOf db ++ [(p.election_id, p.voter_public_key_hash)] ∧
      ¬ PairIn p.election_id p.voter_public_key_hash db := by
  unfold cast_vote at hc
  by_cases hany : db.votes.any (fun r =>
      decide (r.election_id = p.election_id ∧
        r.voter_public_key_hash = p.voter_public_key_hash)) = true
  · rw [if_pos hany] at hc; exact absurd hc (by simp)
  · rw [if_neg hany] at hc
    simp only [Except.ok.injEq, Prod.mk.injEq] at hc
    obtain ⟨hdb, -⟩ := hc
    constructor
    · rw [← hdb]; simp [pairsOf, votePair]
    · rw [pairIn_iff]
      rintro ⟨r, hr, h1, h2⟩
      exact hany (List.any_eq_true.mpr ⟨r, hr, by simp [h1, h2]⟩)

theorem setTx_map_votePair (oid : Nat) (tx : String) (addr : Option String)
    (cid : Option Int) (l : List VoteRecord) :
    (setTx oid tx addr cid l).map votePair = l.map votePair := by
  induction l with
  | nil => rfl
  | cons r rs ih =>
    by_cases h : r.oid = oid
    · simp [setTx, h, votePair]
    · simp [setTx, h, votePair, ih]

theorem exec_pairs (sha : String → String) (op : Op) (db : DB) :
    pairsOf (exec sha op db) = pairsOf db ∨
      ∃ pr, pr ∉ pairsOf db ∧ pairsOf (exec sha op db) = pairsOf db ++ [pr] := by
  cases op with
  | register p now =>
    left
    cases hres : register_voter sha p now db with
    | error e => simp [exec, hres]
    | ok out =>
      have hx : exec sha (Op.register p now) db = out.1 := by simp [exec, hres]
      rw [hx]
      unfold register_voter at hres
      dsimp only at hres
      split at hres
      · exact absurd hres (by simp)
      · simp only [Except.ok.injEq] at hres
        rw [← hres]
        rfl
  | challenge vid nonce now =>
    left
    cases hres : auth_challenge vid nonce now db with
    | error e => simp [exec, hres]
    | ok out =>
      have hx : exec sha (Op.challenge vid nonce now) db = out.1 := by simp [exec, hres]
      rw [hx]
      unfold auth_challenge at hres
      split at hres
      · simp only [Except.ok.injEq] at hres
        rw [← hres]
        rfl
      · exact absurd hres (by simp)
  | verify p =>
    left
    cases hres : auth_verify p db with
    | error e => simp [exec, hres]
    | ok out =>
      have hx : exec sha (Op.verify p) db = out.1 := by simp [exec, hres]
      rw [hx]
      unfold auth_verify at hres
      split at hres
      · exact absurd hres (by simp)
      · split at hres
        · exact absurd hres (by simp)
        · split at hres
          · simp only [Except.ok.injEq] at hres
            rw [← hres]
            rfl
          · exact absurd hres (by simp)
  | createElection p now =>
    left
    cases hres : create_election p now db with
    | error e => simp [exec, hres]
    | ok out =>
      have hx : exec sha (Op.createElection p now) db = out.1 := by simp [exec, hres]
      rw [hx]
      unfold create_election at hres
      simp only [Except.ok.injEq] at hres
      rw [← hres]
      rfl
  | castVote p =>
    cases hres : cast_vote p db with
    | error e => left; simp [exec, hres]
    | ok out =>
      right
      have hx : exec sha (Op.castVote p) db = out.1 := by simp [exec, hres]
      rw [hx]
      obtain ⟨hdb, hnp⟩ := cast_ok_pairs p db out.1 out.2 (by rw [hres])
      exact ⟨(p.election_id, p.voter_public_key_hash), hnp, hdb⟩
  | attachTx p =>
    left
    cases hres : attach_tx p db with
    | error e => simp [exec, hres]
    | ok db2 =>
      have hx : exec sha (Op.attachTx p) db = db2 := by simp [exec, hres]
      rw [hx]
      unfold attach_tx at hres
      split at hres
      · exact absurd hres (by simp)
      · split at hres
        · simp only [Except.ok.injEq] at hres
          rw [← hres]
          show (setTx _ p.tx_hash p.contract_address p.chain_id db.votes).map votePair
            = pairsOf db
          rw [setTx_map_votePair]
          rfl
        · exact absurd hres (by simp)

theorem exec_pairIn_mono (sha : String → String) (op : Op) (db : DB)
    (e h : String) (hin : PairIn e h db) : PairIn e h (exec sha op db) := by
  rcases exec_pairs sha op db with heq | ⟨pr, hnp, heq⟩
  · rw [PairIn, heq]; exact hin
  · rw [PairIn, heq]; exact List.mem_append_left _ hin

theorem exec_votesUnique (sha : String → String) (op : Op) (db : DB)
    (hu : VotesUnique db) : VotesUnique (exec sha op db) := by
  rcases exec_pairs sha op db with heq | ⟨pr, hnp, heq⟩
  · rw [VotesUnique, heq]; exact hu
  · rw [VotesUnique, heq]
    simpa [List.nodup_append] using ⟨hu, hnp⟩

theorem steps_pairIn_mono (sha : String → String) (a b : DB)
    (hs : Steps sha a b) (e h : String) (hin : PairIn e h a) : PairIn e h b := by
  induction hs with
  | refl => exact hin
  | tail hab hbc ih =>
    obtain ⟨op, hop⟩ := hbc
    rw [← hop]
    exact exec_pairIn_mono sha op _ e h ih

theorem steps_votesUnique (sha : String → String) (a b : DB)
    (hs : Steps sha a b) (hu : VotesUnique a) : VotesUnique b := by
  induction hs with
  | refl => exact hu
  | tail hab hbc ih =>
    obtain ⟨op, hop⟩ := hbc
    rw [← hop]
    exact exec_votesUnique sha op _ ih

theorem reachable_votesUnique (sha : String → String) (s : DB)
    (hr : Reachable sha s) : VotesUnique s :=
  steps_votesUnique sha DB.empty s hr (by simp [VotesUnique, pairsOf, DB.empty])

/-- C1: In any reachable store, once a `CastVote` for a pair
`(electionID, voterPublicKeyHash)` has succeeded, every later `CastVote`
carrying the same pair fails with the duplicate-vote error, and the
ballot ledger of the later store holds no two records with the same pair. -/
theorem c1_vote_pair_unique (sha : String → String) (s s₂ s' : DB)
    (p p' : CastVoteRequest) (n : Nat)
    (hreach : Reachable sha s)
    (hcast : cast_vote p s = .ok (s₂, n))
    (hsteps : Steps sha s₂ s')
    (he : p'.election_id = p.election_id)
    (hh : p'.voter_public_key_hash = p.voter_public_key_hash) :
    cast_vote p' s' = .error .duplicateVote ∧ VotesUnique s' := by
  have hpair : PairIn p.election_id p.voter_public_key_hash s₂ := by
    obtain ⟨hdb, -⟩ := cast_ok_pairs p s s₂ n hcast
    rw [PairIn, hdb]
    simp
  have hpair' : PairIn p.election_id p.voter_public_key_hash s' :=
    steps_pairIn_mono sha s₂ s' hsteps _ _ hpair
  have hreach₂ : Reachable sha s₂ := by
    refine Relation.ReflTransGen.tail hreach ⟨Op.castVote p, ?_⟩
    simp [exec, hcast]
  have hreach' : Reachable sha s' := Relation.ReflTransGen.trans hreach₂ hsteps
  refine ⟨?_, reachable_votesUnique sha s' hreach'⟩
  have := cast_fails_of_pairIn p' s' (by rw [he, hh]; exact hpair')
  exact this

theorem c1_vote_pair_unique_witness :
    cast_vote ⟨"e1", "h1", "c1", [], none⟩ c1DB2 = .error .duplicateVote ∧
      VotesUnique c1DB2 :=
  c1_vote_pair_unique (fun x => x) DB.empty c1DB2 c1DB2
    ⟨"e1", "h1", "c1", [], none⟩ ⟨"e1", "h1", "c1", [], none⟩ 0
    Relation.ReflTransGen.refl (by rfl) Relation.ReflTransGen.refl rfl rfl

/-- C2 (code bug): the first `Verify` succeeds and marks the most recent
challenge verified, yet an identical second `Verify` against that same
already-verified challenge succeeds again — `auth_verify` never consults
the `verified` flag, so the nonce is not single-use as the specification
requires. -/
theorem c2_second_verify_succeeds_bug :
    auth_verify c2Req c2DB = .ok (c2DB1, "H1") ∧
      latestSession "v1" c2DB1.sessions = some ⟨1, "v1", "nonce1", 5, true⟩ ∧
      auth_verify c2Req c2DB1 = .ok (c2DB1, "H1") :=
  ⟨by rfl, by rfl, by rfl⟩

theorem exec_hashConsistent (sha : String → String) (op : Op) (db : DB)
    (h : HashConsistent sha db) : HashConsistent sha (exec sha op db) := by
  cases op with
  | register p now =>
    cases hres : register_voter sha p now db with
    | error e => simpa [exec, hres] using h
    | ok out =>
      have hx : exec sha (Op.register p now) db = out.1 := by simp [exec, hres]
      rw [hx]
      unfold register_voter at hres
      dsimp only at hres
      split at hres
      · exact absurd hres (by simp)
      · simp only [Except.ok.injEq] at hres
        rw [← hres]
        intro v hv
        rcases List.mem_append.mp hv with hvin | hvnew
        · exact h v hvin
        · rw [List.mem_singleton.mp hvnew]
  | challenge vid nonce now =>
    cases hres : auth_challenge vid nonce now db with
    | error e => simpa [exec, hres] using h
    | ok out =>
      have hx : exec sha (Op.challenge vid nonce now) db = out.1 := by simp [exec, hres]
      rw [hx]
      unfold auth_challenge at hres
      split at hres
      · simp only [Except.ok.injEq] at hres
        rw [← hres]
        exact h
      · exact absurd hres (by simp)
  | verify p =>
    cases hres : auth_verify p db with
    | error e => simpa [exec, hres] using h
    | ok out =>
      have hx : exec sha (Op.verify p) db = out.1 := by simp [exec, hres]
      rw [hx]
      unfold auth_verify at hres
      split at hres
      · exact absurd hres (by simp)
      · split at hres
        · exact absurd hres (by simp)
        · split at hres
          · simp only [Except.ok.injEq] at hres
            rw [← hres]
            exact h
          · exact absurd hres (by simp)
  | createElection p now =>
    cases hres : create_election p now db with
    | error e => simpa [exec, hres] using h
    | ok out =>
      have hx : exec sha (Op.createElection p now) db = out.1 := by simp [exec, hres]
      rw [hx]
      unfold create_election at hres
      simp only [Except.ok.injEq] at hres
      rw [← hres]
      exact h
  | castVote p =>
    cases hres : cast_vote p db with
    | error e => simpa [exec, hres] using h
    | ok out =>
      have hx : exec sha (Op.castVote p) db = out.1 := by simp [exec, hres]
      rw [hx]
      unfold cast_vote at hres
      split at hres
      · exact absurd hres (by simp)
      · simp only [Except.ok.injEq] at hres
        rw [← hres]
        exact h
  | attachTx p =>
    cases hres : attach_tx p db with
    | error e => simpa [exec, hres] using h
    | ok db2 =>
      have hx : exec sha (Op.attachTx p) db = db2 := by simp [exec, hres]
      rw [hx]
      unfold attach_tx at hres
      split at hres
      · exact absurd hres (by simp)
      · split at hres
        · simp only [Except.ok.injEq] at hres
          rw [← hres]
          exact h
        · exact absurd hres (by simp)

theorem reachable_hashConsistent (sha : String → String) (s : DB)
    (hr : Reachable sha s) : HashConsistent sha s := by
  induction hr with
  | refl => intro v hv; exact absurd hv (by simp [DB.empty])
  | tail hab hbc ih =>
    obtain ⟨op, hop⟩ := hbc
    rw [← hop]
    exact exec_hashConsistent sha op _ ih

/-- C3: In any reachable store (with the hash collision-free), a
registration whose `voterID` is already taken fails with the duplicate
error; a registration whose `publicKey` equals a registered one up to
letter case fails with the duplicate error; and a registration whose
`voterID` and case-normalized `publicKey` are both fresh succeeds. -/
theorem c3_register_dedup (sha : String → String) (hinj : Function.Injective sha)
    (s : DB) (hreach : Reachable sha s) (p : RegisterRequest) (now : Nat) :
    ((∃ v ∈ s.voters, v.voter_id = p.voter_id) →
      register_voter sha p now s = .error .duplicateVoter) ∧
    ((∃ v ∈ s.voters, pyLower v.public_key = pyLower p.public_key) →
      register_voter sha p now s = .error .duplicateVoter) ∧
    ((∀ v ∈ s.voters, v.voter_id ≠ p.voter_id ∧
        pyLower v.public_key ≠ pyLower p.public_key) →
      ∃ s' h, register_voter sha p now s = .ok (s', h)) := by
  have hcons := reachable_hashConsistent sha s hreach
  refine ⟨?_, ?_, ?_⟩
  · rintro ⟨v, hv, hvid⟩
    unfold register_voter
    rw [if_pos (List.any_eq_true.mpr ⟨v, hv, by simp [hvid]⟩)]
  · rintro ⟨v, hv, hpk⟩
    unfold register_voter
    rw [if_pos (List.any_eq_true.mpr ⟨v, hv, by simp [hcons v hv, hpk]⟩)]
  · intro hfresh
    unfold register_voter
    rw [if_neg]
    · exact ⟨_, _, rfl⟩
    · intro hany
      obtain ⟨v, hv, hd⟩ := List.any_eq_true.mp hany
      rw [decide_eq_true_eq] at hd
      rcases hd with hvid | hhash
      · exact (hfresh v hv).1 hvid
      · rw [hcons v hv] at hhash
        exact (hfresh v hv).2 (hinj hhash)

theorem c3Reach : Reachable (fun x => x) c3DB :=
  Relation.ReflTransGen.tail Relation.ReflTransGen.refl
    ⟨Op.register ⟨"v1", "Bob", none, [], "AbC", "ic"⟩ 7, by rfl⟩

theorem c3_register_dedup_witness :
    register_voter (fun x => x) ⟨"v1", "Eve", none, [], "QQQ", "i2"⟩ 9 c3DB
        = .error .duplicateVoter ∧
      register_voter (fun x => x) ⟨"v2", "Eve", none, [], "aBc", "i2"⟩ 9 c3DB
        = .error .duplicateVoter ∧
      ∃ s' h, register_voter (fun x => x) ⟨"v2", "Eve", none, [], "XYZ", "i2"⟩ 9 c3DB
        = .ok (s', h) :=
  ⟨(c3_register_dedup (fun x => x) (fun _ _ hab => hab) c3DB c3Reach
      ⟨"v1", "Eve", none, [], "QQQ", "i2"⟩ 9).1 ⟨c3Voter, by simp [c3DB], rfl⟩,
   (c3_register_dedup (fun x => x) (fun _ _ hab => hab) c3DB c3Reach
      ⟨"v2", "Eve", none, [], "aBc", "i2"⟩ 9).2.1 ⟨c3Voter, by simp [c3DB], by rfl⟩,
   (c3_register_dedup (fun x => x) (fun _ _ hab => hab) c3DB c3Reach
      ⟨"v2", "Eve", none, [], "XYZ", "i2"⟩ 9).2.2
     (by intro v hv; simp [c3DB] at hv; rw [hv]; exact ⟨by decide, by decide⟩)⟩

/-- C4 (code bug): `cast_vote` accepts a `candidateID` that is not the id
of any candidate of the referenced election and records the vote —
`cast_vote` never consults the candidate list of the election, so the
required `InvalidCandidateError` is impossible. -/
theorem c4_invalid_candidate_accepted_bug :
    (∀ c ∈ c4Election.candidates, c.id ≠ c4Req.candidate_id) ∧
      cast_vote c4Req c4DB =
        .ok (⟨[], [], [c4Election], [⟨1, "0", "H1", "cX", [], none, none, none, none⟩], 2⟩, 1) :=
  ⟨by decide, by rfl⟩

/-- C5 (code bug): `cast_vote` succeeds against a `closed` election and
even against an election id that names no election at all — it checks
neither existence, nor status, nor time window, so neither
`ElectionNotOpenError` nor `NotFoundError` can ever be raised. -/
theorem c5_closed_or_missing_election_accepted_bug :
    c5Election.status = .closed ∧
      cast_vote c5Req c5DB =
        .ok (⟨[], [], [c5Election], [⟨1, "0", "H1", "c1", [], none, none, none, none⟩], 2⟩, 1) ∧
      (∀ e ∈ c5DB.elections, toString e.oid ≠ c5ReqMissing.election_id) ∧
      cast_vote c5ReqMissing c5DB =
        .ok (⟨[], [], [c5Election],
          [⟨1, "no-such-election", "H2", "c1", [], none, none, none, none⟩], 2⟩, 1) :=
  ⟨by rfl, by rfl, by decide, by rfl⟩

/-- C6 (code bug): on a record whose `txHash` is already the non-empty
`0xaaa`, `attach_tx` with the different hash `0xbbb` succeeds and silently
overwrites the stored hash, instead of failing with a conflict error and
leaving the record unchanged. -/
theorem c6_attach_overwrites_bug :
    c6Rec.tx_hash = some "0xaaa" ∧
      c6Req.tx_hash ≠ "0xaaa" ∧
      attach_tx c6Req c6DB =
        .ok ⟨[], [], [], [⟨0, "e", "h", "c", [], none, some "0xbbb", some 1, some "0xCC"⟩], 1⟩ :=
  ⟨by rfl, by decide, by rfl⟩

/-- The function `latestSession` finds nothing when the voter has no session. -/
theorem latestSession_eq_none (vid : String) (l : List AuthSession)
    (h : ∀ t ∈ l, t.voter_id ≠ vid) : latestSession vid l = none := by
  unfold latestSession
  rw [List.filter_eq_nil_iff.mpr]
  · rfl
  · intro t ht
    simp [h t ht]

/-- C7: `Verify` fails with the not-found error when the voter id names no
registered voter; it fails with the no-session error when the voter is
registered but has no challenge; and in both cases the store is left
untouched, so no challenge is marked verified. -/
theorem c7_verify_unknown_or_sessionless (p : VerifyRequest) (s : DB) :
    ((∀ v ∈ s.voters, v.voter_id ≠ p.voter_id) →
      auth_verify p s = .error .voterNotFound ∧
        ∀ sha, exec sha (Op.verify p) s = s) ∧
    ((∃ v ∈ s.voters, v.voter_id = p.voter_id) →
      (∀ t ∈ s.sessions, t.voter_id ≠ p.voter_id) →
      auth_verify p s = .error .noSession ∧
        ∀ sha, exec sha (Op.verify p) s = s) := by
  constructor
  · intro hnone
    have hfind : s.voters.find? (fun v => decide (v.voter_id = p.voter_id)) = none := by
      rw [List.find?_eq_none]
      intro v hv
      simp [hnone v hv]
    have herr : auth_verify p s = .error .voterNotFound := by
      unfold auth_verify
      rw [hfind]
    exact ⟨herr, fun sha => by simp [exec, herr]⟩
  · intro hsome hnosess
    have herr : auth_verify p s = .error .noSession := by
      unfold auth_verify
      cases hfind : s.voters.find? (fun v => decide (v.voter_id = p.voter_id)) with
      | none =>
        exfalso
        obtain ⟨v, hv, hvid⟩ := hsome
        rw [List.find?_eq_none] at hfind
        have hx := hfind v hv
        simp [hvid] at hx
      | some voter =>
        rw [latestSession_eq_none p.voter_id s.sessions hnosess]
    exact ⟨herr, fun sha => by simp [exec, herr]⟩

theorem c7_verify_unknown_or_sessionless_witness :
    (auth_verify ⟨"ghost", "x", "y"⟩ c7DB = .error .voterNotFound ∧
      exec (fun z => z) (Op.verify ⟨"ghost", "x", "y"⟩) c7DB = c7DB) ∧
    (auth_verify ⟨"v1", "x", "y"⟩ c7DB = .error .noSession ∧
      exec (fun z => z) (Op.verify ⟨"v1", "x", "y"⟩) c7DB = c7DB) :=
  have h1 := (c7_verify_unknown_or_sessionless ⟨"ghost", "x", "y"⟩ c7DB).1 (by decide)
  have h2 := (c7_verify_unknown_or_sessionless ⟨"v1", "x", "y"⟩ c7DB).2
    ⟨⟨"v1", "A", none, [], "PK", "H", "ic", 0⟩, by decide, by decide⟩ (by decide)
  ⟨⟨h1.1, h1.2 (fun z => z)⟩, ⟨h2.1, h2.2 (fun z => z)⟩⟩

theorem setVerified_map_oid (oid : Nat) (l : List AuthSession) :
    (setVerified oid l).map (·.oid) = l.map (·.oid) := by
  induction l with
  | nil => rfl
  | cons t ts ih =>
    by_cases h : t.oid = oid
    · simp [setVerified, h]
    · simp [setVerified, h, ih]

theorem exec_sessionIdsOk (sha : String → String) (op : Op) (db : DB)
    (h : SessionIdsOk db) : SessionIdsOk (exec sha op db) := by
  obtain ⟨hbd, hnd⟩ := h
  cases op with
  | register p now =>
    cases hres : register_voter sha p now db with
    | error e => simpa [exec, hres] using ⟨hbd, hnd⟩
    | ok out =>
      have hx : exec sha (Op.register p now) db = out.1 := by simp [exec, hres]
      rw [hx]
      unfold register_voter at hres
      dsimp only at hres
      split at hres
      · exact absurd hres (by simp)
      · simp only [Except.ok.injEq] at hres
        rw [← hres]
        exact ⟨fun t ht => Nat.lt_succ_of_lt (hbd t ht), hnd⟩
  | challenge vid nonce now =>
    cases hres : auth_challenge vid nonce now db with
    | error e => simpa [exec, hres] using ⟨hbd, hnd⟩
    | ok out =>
      have hx : exec sha (Op.challenge vid nonce now) db = out.1 := by simp [exec, hres]
      rw [hx]
      unfold auth_challenge at hres
      split at hres
      · simp only [Except.ok.injEq] at hres
        rw [← hres]
        constructor
        · intro t ht
          rcases List.mem_append.mp ht with hold | hnew
          · exact Nat.lt_succ_of_lt (hbd t hold)
          · rw [List.mem_singleton.mp hnew]
            exact Nat.lt_succ_self _
        · rw [List.map_append]
          refine List.Nodup.append hnd (by simp) ?_
          intro a ha hb
          simp only [List.map_cons, List.map_nil, List.mem_singleton] at hb
          rcases List.mem_map.mp ha with ⟨t, ht, hta⟩
          rw [← hta] at hb
          exact Nat.ne_of_lt (hbd t ht) hb
      · exact absurd hres (by simp)
  | verify p =>
    cases hres : auth_verify p db with
    | error e => simpa [exec, hres] using ⟨hbd, hnd⟩
    | ok out =>
      have hx : exec sha (Op.verify p) db = out.1 := by simp [exec, hres]
      rw [hx]
      unfold auth_verify at hres
      split at hres
      · exact absurd hres (by simp)
      · split at hres
        · exact absurd hres (by simp)
        · split at hres
          · simp only [Except.ok.injEq] at hres
            rw [← hres]
            constructor
            · intro t ht
              have : t.oid ∈ (setVerified _ db.sessions).map (·.oid) :=
                List.mem_map.mpr ⟨t, ht, rfl⟩
              rw [setVerified_map_oid] at this
              rcases List.mem_map.mp this with ⟨u, hu, huo⟩
              rw [← huo]
              exact hbd u hu
            · show ((setVerified _ db.sessions).map (·.oid)).Nodup
              rw [setVerified_map_oid]
              exact hnd
          · exact absurd hres (by simp)
  | createElection p now =>
    cases hres : create_election p now db with
    | error e => simpa [exec, hres] using ⟨hbd, hnd⟩
    | ok out =>
      have hx : exec sha (Op.createElection p now) db = out.1 := by simp [exec, hres]
      rw [hx]
      unfold create_election at hres
      simp only [Except.ok.injEq] at hres
      rw [← hres]
      exact ⟨fun t ht => Nat.lt_succ_of_lt (hbd t ht), hnd⟩
  | castVote p =>
    cases hres : cast_vote p db with
    | error e => simpa [exec, hres] using ⟨hbd, hnd⟩
    | ok out =>
      have hx : exec sha (Op.castVote p) db = out.1 := by simp [exec, hres]
      rw [hx]
      unfold cast_vote at hres
      split at hres
      · exact absurd hres (by simp)
      · simp only [Except.ok.injEq] at hres
        rw [← hres]
        exact ⟨fun t ht => Nat.lt_succ_of_lt (hbd t ht), hnd⟩
  | attachTx p =>
    cases hres : attach_tx p db with
    | error e => simpa [exec, hres] using ⟨hbd, hnd⟩
    | ok db2 =>
      have hx : exec sha (Op.attachTx p) db = db2 := by simp [exec, hres]
      rw [hx]
      unfold attach_tx at hres
      split at hres
      · exact absurd hres (by simp)
      · split at hres
        · simp only [Except.ok.injEq] at hres
          rw [← hres]
          exact ⟨hbd, hnd⟩
        · exact absurd hres (by simp)

theorem reachable_sessionIdsOk (sha : String → String) (s : DB)
    (hr : Reachable sha s) : SessionIdsOk s := by
  induction hr with
  | refl => exact ⟨fun t ht => absurd ht (by simp [DB.empty]), by simp [DB.empty]⟩
  | tail hab hbc ih =>
    obtain ⟨op, hop⟩ := hbc
    rw [← hop]
    exact exec_sessionIdsOk sha op _ ih

theorem foldl_latestStep_mem (l : List AuthSession) :
    ∀ (acc : Option AuthSession) (r : AuthSession),
      l.foldl latestStep acc = some r → acc = some r ∨ r ∈ l := by
  induction l with
  | nil => intro acc r h; exact Or.inl h
  | cons t ts ih =>
    intro acc r h
    rw [List.foldl_cons] at h
    rcases ih (latestStep acc t) r h with hstep | hmem
    · cases acc with
      | none =>
        simp only [latestStep, Option.some.injEq] at hstep
        exact Or.inr (by rw [← hstep]; exact List.mem_cons_self t ts)
      | some b =>
        simp only [latestStep] at hstep
        split at hstep
        · simp only [Option.some.injEq] at hstep
          exact Or.inr (by rw [← hstep]; exact List.mem_cons_self t ts)
        · exact Or.inl hstep
    · exact Or.inr (List.mem_cons_of_mem t hmem)

theorem foldl_latestStep_acc_le (l : List AuthSession) :
    ∀ (b r : AuthSession), l.foldl latestStep (some b) = some r →
      b.created_at ≤ r.created_at := by
  induction l with
  | nil =>
    intro b r h
    simp only [List.foldl_nil, Option.some.injEq] at h
    rw [h]
  | cons t ts ih =>
    intro b r h
    rw [List.foldl_cons] at h
    simp only [latestStep] at h
    split at h
    · exact le_of_lt (lt_of_lt_of_le (by assumption) (ih t r h))
    · exact ih b r h

theorem foldl_latestStep_ge (l : List AuthSession) :
    ∀ (acc : Option AuthSession) (r : AuthSession),
      l.foldl latestStep acc = some r →
      ∀ t ∈ l, t.created_at ≤ r.created_at := by
  induction l with
  | nil => intro acc r _ t ht; exact absurd ht (by simp)
  | cons u us ih =>
    intro acc r h t ht
    rw [List.foldl_cons] at h
    rcases List.mem_cons.mp ht with htu | htus
    · have hstep : ∃ b, latestStep acc u = some b ∧ u.created_at ≤ b.created_at := by
        cases acc with
        | none => exact ⟨u, rfl, le_refl _⟩
        | some b =>
          simp only [latestStep]
          split
          · exact ⟨u, rfl, le_refl _⟩
          · exact ⟨b, rfl, Nat.le_of_not_lt (by assumption)⟩
      obtain ⟨b, hb, hub⟩ := hstep
      rw [hb] at h
      rw [htu]
      exact le_trans hub (foldl_latestStep_acc_le us b r h)
    · exact ih (latestStep acc u) r h t htus

theorem foldl_latestStep_ne_none (l : List AuthSession) :
    ∀ (b : AuthSession), l.foldl latestStep (some b) ≠ none := by
  induction l with
  | nil => intro b h; exact absurd h (by simp)
  | cons t ts ih =>
    intro b h
    rw [List.foldl_cons] at h
    simp only [latestStep] at h
    split at h
    · exact ih t h
    · exact ih b h

/-- When one session of the voter has strictly the greatest
`created_at`, the `find_one(..., sort created_at desc)` of `auth_verify`
returns exactly it. -/
theorem latestSession_eq_of_strict_max (vid : String) (l : List AuthSession)
    (m : AuthSession) (hm : m ∈ l) (hv : m.voter_id = vid)
    (hmax : ∀ t ∈ l, t.voter_id = vid → t ≠ m → t.created_at < m.created_at) :
    latestSession vid l = some m := by
  have hmf : m ∈ l.filter (fun t => decide (t.voter_id = vid)) :=
    List.mem_filter.mpr ⟨hm, by simp [hv]⟩
  cases hls : latestSession vid l with
  | none =>
    exfalso
    unfold latestSession at hls
    rcases List.mem_iff_append.mp hmf with ⟨l1, l2, hsplit⟩
    rw [hsplit, List.foldl_append, List.foldl_cons] at hls
    cases hacc : l1.foldl latestStep none with
    | none =>
      rw [hacc] at hls
      exact foldl_latestStep_ne_none l2 m (by simpa [latestStep] using hls)
    | some b =>
      rw [hacc] at hls
      simp only [latestStep] at hls
      split at hls
      · exact foldl_latestStep_ne_none l2 m hls
      · exact foldl_latestStep_ne_none l2 b hls
  | some r =>
    unfold latestSession at hls
    have hrmem : r ∈ l.filter (fun t => decide (t.voter_id = vid)) := by
      rcases foldl_latestStep_mem _ none r hls with habs | hmem
      · exact absurd habs (by simp)
      · exact hmem
    have hrv : r.voter_id = vid := by
      have := (List.mem_filter.mp hrmem).2
      simpa using this
    have hge : m.created_at ≤ r.created_at :=
      foldl_latestStep_ge _ none r hls m hmf
    by_cases hrm : r = m
    · rw [hrm]
    · exfalso
      have hlt : r.created_at < m.created_at :=
        hmax r (List.mem_filter.mp hrmem).1 hrv hrm
      exact absurd hge (Nat.not_le_of_lt hlt)

theorem map_setVerified_absent (oid : Nat) (l : List AuthSession)
    (h : ∀ t ∈ l, t.oid ≠ oid) :
    l.map (fun t => if t.oid = oid then { t with verified := true } else t) = l := by
  induction l with
  | nil => rfl
  | cons t ts ih =>
    rw [List.map_cons, if_neg (h t (List.mem_cons_self t ts)),
      ih (fun u hu => h u (List.mem_cons_of_mem t hu))]

/-- With pairwise-distinct session ids, the `update_one` of `auth_verify`
acts pointwise: the session with the targeted id gets `verified := true`,
every other session is returned unchanged. -/
theorem setVerified_eq_map (oid : Nat) (l : List AuthSession)
    (hnd : (l.map (·.oid)).Nodup) :
    setVerified oid l =
      l.map (fun t => if t.oid = oid then { t with verified := true } else t) := by
  induction l with
  | nil => rfl
  | cons t ts ih =>
    rw [List.map_cons] at hnd ⊢
    have hnd' := (List.nodup_cons.mp hnd).2
    by_cases h : t.oid = oid
    · rw [setVerified, if_pos h, if_pos h]
      have habs : ∀ u ∈ ts, u.oid ≠ oid := by
        intro u hu
        rw [← h]
        intro hc
        exact (List.nodup_cons.mp hnd).1 (List.mem_map.mpr ⟨u, hu, hc⟩)
      rw [map_setVerified_absent oid ts habs]
    · rw [setVerified, if_neg h, if_neg h, ih hnd']

/-- C8: in a reachable store, a successful `Verify` for a voter with
several challenges returns the `publicKeyHash` of the voter and updates the
session list pointwise: exactly the most-recently-created challenge gets
`verified := true`, and every other challenge (all the earlier ones
included) is returned unchanged. -/
theorem c8_verify_targets_latest (sha : String → String) (s : DB)
    (hreach : Reachable sha s)
    (p : VerifyRequest) (v : Voter) (sess : AuthSession)
    (hv : s.voters.find? (fun w => decide (w.voter_id = p.voter_id)) = some v)
    (hmem : sess ∈ s.sessions) (hvid : sess.voter_id = p.voter_id)
    (hmax : ∀ t ∈ s.sessions, t.voter_id = p.voter_id → t ≠ sess →
      t.created_at < sess.created_at)
    (hpr : v.iris_commitment.take 8 = p.iris_commitment_proof.take 8)
    (hsig : 64 ≤ p.signed_nonce.length) :
    auth_verify p s =
      .ok ({ s with sessions := (s.sessions.map
          (fun t => if t.oid = sess.oid then { t with verified := true } else t)) },
        v.public_key_hash) := by
  have hls : latestSession p.voter_id s.sessions = some sess :=
    latestSession_eq_of_strict_max p.voter_id s.sessions sess hmem hvid hmax
  have hnd : (s.sessions.map (·.oid)).Nodup :=
    (reachable_sessionIdsOk sha s hreach).2
  unfold auth_verify
  rw [hv, hls]
  dsimp only
  rw [if_pos ⟨hpr, hsig⟩, setVerified_eq_map sess.oid s.sessions hnd]

theorem c8Reach : Reachable (fun x => x) c8DB :=
  Relation.ReflTransGen.tail
    (Relation.ReflTransGen.tail
      (Relation.ReflTransGen.tail Relation.ReflTransGen.refl
        ⟨Op.register ⟨"v1", "A", none, [], "pk", "abcdefghZ"⟩ 0, by rfl⟩)
      ⟨Op.challenge "v1" "n1" 1, by rfl⟩)
    ⟨Op.challenge "v1" "n2" 2, by rfl⟩

theorem c8_verify_targets_latest_witness :
    auth_verify ⟨"v1", "abcdefgh", nonce64⟩ c8DB =
      .ok (⟨[c8Voter], [⟨1, "v1", "n1", 1, false⟩, ⟨2, "v1", "n2", 2, true⟩], [], [], 3⟩,
        "pk") :=
  (c8_verify_targets_latest (fun x => x) c8DB c8Reach ⟨"v1", "abcdefgh", nonce64⟩
      c8Voter ⟨2, "v1", "n2", 2, false⟩ (by rfl) (by decide) (by rfl) (by decide)
      (by decide) (by decide)).trans (by rfl)

theorem foldl_latestStep_map (f : String → String) (l : List AuthSession) :
    ∀ acc : Option AuthSession,
      (l.map (fun t => { t with nonce := f t.nonce })).foldl latestStep
          (acc.map (fun t => { t with nonce := f t.nonce })) =
        (l.foldl latestStep acc).map (fun t => { t with nonce := f t.nonce }) := by
  induction l with
  | nil => intro acc; rfl
  | cons t ts ih =>
    intro acc
    rw [List.map_cons, List.foldl_cons, List.foldl_cons]
    have hstep : latestStep (acc.map (fun u => { u with nonce := f u.nonce }))
        { t with nonce := f t.nonce } =
        (latestStep acc t).map (fun u => { u with nonce := f u.nonce }) := by
      cases acc with
      | none => rfl
      | some b =>
        by_cases hlt : b.created_at < t.created_at
        · simp [latestStep, hlt]
        · simp [latestStep, hlt]
    rw [hstep, ih (latestStep acc t)]

theorem latestSession_mapNonces (f : String → String) (vid : String)
    (l : List AuthSession) :
    latestSession vid (l.map (fun t => { t with nonce := f t.nonce })) =
      (latestSession vid l).map (fun t => { t with nonce := f t.nonce }) := by
  unfold latestSession
  rw [List.filter_map]
  have hp : ((fun t : AuthSession => decide (t.voter_id = vid)) ∘
      (fun t => { t with nonce := f t.nonce })) =
      (fun t : AuthSession => decide (t.voter_id = vid)) := rfl
  rw [hp]
  exact foldl_latestStep_map f (l.filter (fun t => decide (t.voter_id = vid))) none

theorem verify_ok_iff (p : VerifyRequest) (s : DB) (v : Voter) (sess : AuthSession)
    (hv : s.voters.find? (fun w => decide (w.voter_id = p.voter_id)) = some v)
    (hls : latestSession p.voter_id s.sessions = some sess) :
    (∃ out, auth_verify p s = .ok out) ↔
      (v.iris_commitment.take 8 = p.iris_commitment_proof.take 8 ∧
        64 ≤ p.signed_nonce.length) := by
  unfold auth_verify
  rw [hv, hls]
  dsimp only
  by_cases hc : v.iris_commitment.take 8 = p.iris_commitment_proof.take 8 ∧
      64 ≤ p.signed_nonce.length
  · rw [if_pos hc]
    simp [hc]
  · rw [if_neg hc]
    simp [hc]

/-- C9: for a registered voter with at least one issued challenge, the
implemented `Verify` succeeds exactly when the first 8 characters of the
submitted proof equal the first 8 characters of the stored iris
commitment and the submitted signed nonce is at least 64 characters long;
and rewriting every stored nonce arbitrarily does not change whether it
succeeds — the issued nonce is never compared against the submission. -/
theorem c9_placeholder_verification (p : VerifyRequest) (s : DB) (v : Voter)
    (hv : s.voters.find? (fun w => decide (w.voter_id = p.voter_id)) = some v)
    (hs : (latestSession p.voter_id s.sessions).isSome) :
    ((∃ out, auth_verify p s = .ok out) ↔
      (v.iris_commitment.take 8 = p.iris_commitment_proof.take 8 ∧
        64 ≤ p.signed_nonce.length)) ∧
    (∀ f : String → String,
      ((∃ out, auth_verify p (mapNonces f s) = .ok out) ↔
        (∃ out, auth_verify p s = .ok out))) := by
  obtain ⟨sess, hls⟩ := Option.isSome_iff_exists.mp hs
  have h1 := verify_ok_iff p s v sess hv hls
  refine ⟨h1, fun f => ?_⟩
  have hv2 : (mapNonces f s).voters.find?
      (fun w => decide (w.voter_id = p.voter_id)) = some v := hv
  have hls2 : latestSession p.voter_id (mapNonces f s).sessions =
      some { sess with nonce := f sess.nonce } := by
    show latestSession p.voter_id
      (s.sessions.map (fun t => { t with nonce := f t.nonce })) = _
    rw [latestSession_mapNonces, hls]
    rfl
  exact (verify_ok_iff p (mapNonces f s) v { sess with nonce := f sess.nonce }
    hv2 hls2).trans h1.symm

theorem c9_placeholder_verification_witness :
    ((∃ out, auth_verify c2Req c2DB = .ok out) ↔
      (c2Voter.iris_commitment.take 8 = c2Req.iris_commitment_proof.take 8 ∧
        64 ≤ c2Req.signed_nonce.length)) ∧
    ((∃ out, auth_verify c2Req (mapNonces (fun x => x ++ "Q") c2DB) = .ok out) ↔
      (∃ out, auth_verify c2Req c2DB = .ok out)) :=
  have h := c9_placeholder_verification c2Req c2DB c2Voter (by rfl) (by rfl)
  ⟨h.1, h.2 (fun x => x ++ "Q")⟩

/-- C10: a `Register` call fails with the duplicate error exactly when
some stored voter already has the requested `voterID` or the computed
`publicKeyHash`, and any failing `Register` call leaves the store
completely unchanged — the handler raises before its only write. -/
theorem c10_failed_register_no_effect (sha : String → String)
    (p : RegisterRequest) (now : Nat) (s : DB) :
    (register_voter sha p now s = .error .duplicateVoter ↔
      ∃ v ∈ s.voters, v.voter_id = p.voter_id ∨
        v.public_key_hash = sha (pyLower p.public_key)) ∧
    (∀ e, register_voter sha p now s = .error e →
      exec sha (Op.register p now) s = s) := by
  constructor
  · unfold register_voter
    by_cases hany : (s.voters.any fun v =>
        decide (v.voter_id = p.voter_id ∨
          v.public_key_hash = sha (pyLower p.public_key))) = true
    · rw [if_pos hany]
      simp only [true_iff]
      obtain ⟨v, hv, hd⟩ := List.any_eq_true.mp hany
      exact ⟨v, hv, by simpa using hd⟩
    · rw [if_neg hany]
      constructor
      · intro h
        exact absurd h (by simp)
      · rintro ⟨v, hv, hd⟩
        exact absurd (List.any_eq_true.mpr ⟨v, hv, by simpa using hd⟩) hany
  · intro e h
    simp [exec, h]

theorem c10_failed_register_no_effect_witness :
    register_voter (fun x => x) ⟨"v1", "Eve", none, [], "ZZ", "i3"⟩ 9 c3DB
        = .error .duplicateVoter ∧
      exec (fun x => x) (Op.register ⟨"v1", "Eve", none, [], "ZZ", "i3"⟩ 9) c3DB = c3DB :=
  have h := c10_failed_register_no_effect (fun x => x)
    ⟨"v1", "Eve", none, [], "ZZ", "i3"⟩ 9 c3DB
  have herr := h.1.mpr ⟨c3Voter, by simp [c3DB], Or.inl rfl⟩
  ⟨herr, h.2 .duplicateVoter herr⟩

end IrisVoting
